import Mathlib

/-
  Verification of the felte core form-state engine
  (src/packages/core/src/helpers.ts) against its specification.

  The engine keeps three parallel nested trees (values, touched flags,
  validation errors) addressed by paths, plus an optional set of live
  form controls.  We embed the nested JS values as a mutual inductive
  `JVal`/`JObj`/`JArr`, paths as lists of parsed segments, and the
  helpers of helpers.ts as pure state transformers over `EngineState`.
  `validate` is asynchronous in the source; we split it at its single
  await point into `validateStart` / `validateFinish` and record the
  store writes it performs as an explicit event trace.
-/

set_option autoImplicit false

namespace Felte

/-- A parsed path segment: a named object key or a numeric array index.
The spec's Path Codec parses `a.b[0]` into such segments; internally all
deep structural ops operate on parsed segments. -/
inductive Seg where
  | key : String → Seg
  | idx : Nat → Seg
deriving DecidableEq, Repr

/-- A path: a list of parsed segments. -/
abbrev Path := List Seg

mutual
/-- A JS-like nested value: scalars (string, number, boolean, null,
undefined), keyed mappings and ordered sequences.  This is the shape of
the Value, Touched and Error Trees of the engine. -/
inductive JVal where
  | str : String → JVal
  | num : Int → JVal
  | boolean : Bool → JVal
  | null : JVal
  | undefined : JVal
  | obj : JObj → JVal
  | arr : JArr → JVal
deriving Repr
/-- The field list of a JS object (ordered association list). -/
inductive JObj where
  | nil : JObj
  | cons : String → JVal → JObj → JObj
deriving Repr
/-- The element list of a JS array. -/
inductive JArr where
  | nil : JArr
  | cons : JVal → JArr → JArr
deriving Repr
end

/-- Read a field of an object; absent keys yield `undefined` (JS semantics). -/
def objGet : JObj → String → JVal
  | .nil, _ => .undefined
  | .cons k v rest, k' => if k = k' then v else objGet rest k'

/-- Write a field of an object: replace the first binding of the key in
place, or append a new binding when the key is absent. -/
def objSet : JObj → String → JVal → JObj
  | .nil, k, v => .cons k v .nil
  | .cons k0 v0 rest, k, v =>
      if k0 = k then .cons k0 v rest else .cons k0 v0 (objSet rest k v)

/-- Read an array element; out-of-range indices yield `undefined`. -/
def arrGet : JArr → Nat → JVal
  | .nil, _ => .undefined
  | .cons x _, 0 => x
  | .cons _ rest, n + 1 => arrGet rest n

/-- Write an array element, padding with `undefined` (JS holes) when the
index lies beyond the current length. -/
def arrSet : JArr → Nat → JVal → JArr
  | .nil, 0, v => .cons v .nil
  | .nil, n + 1, v => .cons .undefined (arrSet .nil n v)
  | .cons _ rest, 0, v => .cons v rest
  | .cons x rest, n + 1, v => .cons x (arrSet rest n v)

/-- Modelled from the spec: `_get` of `@felte/common` (not under src/).
Read-only resolve of a path against a nested value; returns `undefined`
(not an error) whenever an intermediate is missing or of the wrong
container kind. -/
def _get : JVal → Path → JVal
  | root, [] => root
  | .obj o, .key k :: rest => _get (objGet o k) rest
  | .arr a, .idx i :: rest => _get (arrGet a i) rest
  | _, _ :: _ => .undefined

/-- Modelled from the spec: `_set` of `@felte/common` (not under src/).
Returns a new root with the target location replaced by `v`; containers
along the path are rebuilt (copy-on-write), siblings reused; missing
intermediate containers are created as an array if the next segment is
numeric, else as an object. -/
def _set : JVal → Path → JVal → JVal
  | _, [], v => v
  | .obj o, .key k :: rest, v => .obj (objSet o k (_set (objGet o k) rest v))
  | .arr a, .idx i :: rest, v => .arr (arrSet a i (_set (arrGet a i) rest v))
  | _, .key k :: rest, v => .obj (objSet .nil k (_set .undefined rest v))
  | _, .idx i :: rest, v => .arr (arrSet .nil i (_set .undefined rest v))

mutual
/-- Modelled from the spec: `deepSet` of `@felte/common` (not under
src/).  Returns a structure shape-isomorphic to the root in which every
leaf scalar is replaced by the constant `c`; used by the engine to mark
all fields touched (`true`) or untouched (`false`). -/
def deepSet : JVal → JVal → JVal
  | .obj o, c => .obj (deepSetObj o c)
  | .arr a, c => .arr (deepSetArr a c)
  | _, c => c
def deepSetObj : JObj → JVal → JObj
  | .nil, _ => .nil
  | .cons k v rest, c => .cons k (deepSet v c) (deepSetObj rest c)
def deepSetArr : JArr → JVal → JArr
  | .nil, _ => .nil
  | .cons v rest, c => .cons (deepSet v c) (deepSetArr rest c)
end

mutual
/-- Modelled from the spec: `_cloneDeep` of `@felte/common` (not under
src/).  Produces a fully independent copy of any composition of
scalars, arrays and objects (scalars carried as-is). -/
def _cloneDeep : JVal → JVal
  | .obj o => .obj (cloneObj o)
  | .arr a => .arr (cloneArr a)
  | v => v
def cloneObj : JObj → JObj
  | .nil => .nil
  | .cons k v rest => .cons k (_cloneDeep v) (cloneObj rest)
def cloneArr : JArr → JArr
  | .nil => .nil
  | .cons v rest => .cons (_cloneDeep v) (cloneArr rest)
end

mutual
/-- Every leaf scalar of the tree satisfies the boolean predicate `p`
(containers may be empty, in which case this holds vacuously). -/
def allLeavesP : (JVal → Bool) → JVal → Bool
  | p, .obj o => allLeavesObjP p o
  | p, .arr a => allLeavesArrP p a
  | p, v => p v
def allLeavesObjP : (JVal → Bool) → JObj → Bool
  | _, .nil => true
  | p, .cons _ v rest => allLeavesP p v && allLeavesObjP p rest
def allLeavesArrP : (JVal → Bool) → JArr → Bool
  | _, .nil => true
  | p, .cons v rest => allLeavesP p v && allLeavesArrP p rest
end

/-- The leaf is the boolean scalar `b`. -/
def isBool (b : Bool) : JVal → Bool
  | .boolean b' => b' == b
  | _ => false

mutual
/-- Modelled from the spec: `_merge` of `@felte/common` (not under
src/).  Deep merge where the second tree's leaves win; objects are
merged key-wise, anything else is replaced by the second tree. -/
def mergeJ : JVal → JVal → JVal
  | .obj a, .obj b => .obj (mergeObj a b)
  | _, b => b
def mergeObj : JObj → JObj → JObj
  | a, .nil => a
  | a, .cons k v rest => mergeObj (objSet a k (mergeJ (objGet a k) v)) rest
end

/-- A validator: a (possibly asynchronous) function from a Value Tree
snapshot to either an Error Tree, `none` (no errors), or a rejection
(`Except.error`). -/
def Validator : Type := JVal → Except Unit (Option JVal)

/-- Combine two validator results: later (second) results win on merge. -/
def combineResults : Option JVal → Option JVal → Option JVal
  | none, b => b
  | some a, none => some a
  | some a, some b => some (mergeJ a b)

/-- Modelled from the spec: `executeValidation` of `@felte/common` (not
under src/).  Runs every validator against the same immutable data
snapshot; if any validator rejects, the executor rejects; otherwise the
results are merged in registry order (later validators win). -/
def executeValidation (d : JVal) (vs : List Validator) :
    Except Unit (Option JVal) :=
  match vs.mapM (fun f => f d) with
  | .error e => .error e
  | .ok rs => .ok (rs.foldl combineResults none)

/-- A live form control of the attached form node, as seen through the
control-binding bridge: whether it counts as a form control
(`isFormControl`), its `name` attribute, the logical path derived from
it (modelled from the spec: `getPath` of `@felte/common` derives a
control's path from its name/index; we carry the derived path as a
field), and its current value. -/
structure Control where
  isControl : Bool
  name : String
  path : Path
  value : JVal

/-- The control matches a target path: it is a form control, has a
non-empty name, and its derived path equals the target. -/
def matchesControl (c : Control) (p : Path) : Bool :=
  c.isControl && (c.name != "") && (c.path == p)

/-- The loop body of `setField` in helpers.ts: walk the control list,
skip non-controls and unnamed controls, push the value into the FIRST
control whose derived path equals `p` and stop (`return`); when no
control matches, leave the list unchanged. -/
def updateControls : List Control → Path → JVal → List Control
  | [], _, _ => []
  | c :: rest, p, v =>
      if matchesControl c p then { c with value := v } :: rest
      else c :: updateControls rest p v

/-- Modelled from the spec: `setForm` of `@felte/common` (not under
src/).  Re-syncs the entire live control set from `values`: every form
control with a name receives the value at its derived path. -/
def setForm (cs : List Control) (values : JVal) : List Control :=
  cs.map (fun c =>
    if c.isControl && (c.name != "") then { c with value := _get values c.path }
    else c)

/-- The state owned by `createHelpers`: the three stores (`data`,
`touched`, `errors`), the Initial Values Snapshot and the optional
attached form node (its control list). -/
structure EngineState where
  data : JVal
  touched : JVal
  errors : JVal
  initialValues : JVal
  formNode : Option (List Control)

/-- `setTouched(fieldName, index?)` of helpers.ts: sets the Touched Tree
leaf at `fieldName` (or `fieldName[index]` when an index is given) to
`true` via `_set`. -/
def setTouched (s : EngineState) (fieldName : Path) (index : Option Nat) :
    EngineState :=
  let p := match index with
    | none => fieldName
    | some i => fieldName ++ [Seg.idx i]
  { s with touched := _set s.touched p (.boolean true) }

/-- `setError(path, error)` of helpers.ts: overwrites the Error Tree
leaf at `path` via `_set`. -/
def setError (s : EngineState) (p : Path) (e : JVal) : EngineState :=
  { s with errors := _set s.errors p e }

/-- `setField(path, value, touch)` of helpers.ts: updates the Value Tree
at `path` via `_set`; when `touch` is true also performs
`setTouched(path)`; then, when a form node is attached, pushes `value`
into the first control whose derived path equals `path`. -/
def setField (s : EngineState) (p : Path) (v : JVal) (touch : Bool) :
    EngineState :=
  let s1 := { s with data := _set s.data p v }
  let s2 := if touch then setTouched s1 p none else s1
  match s2.formNode with
  | none => s2
  | some cs => { s2 with formNode := some (updateControls cs p v) }

/-- `setFields(values)` of helpers.ts: wholesale replace of the Value
Tree with a deep clone of `values`; when a form node is attached,
re-syncs the entire control set from `values` via `setForm`. -/
def setFields (s : EngineState) (values : JVal) : EngineState :=
  let s1 := { s with data := _cloneDeep values }
  match s1.formNode with
  | none => s1
  | some cs => { s1 with formNode := some (setForm cs values) }

/-- `reset()` of helpers.ts: `setFields(_cloneDeep(initialValues))`
followed by `deepSet` of the Touched Tree with constant `false`. -/
def reset (s : EngineState) : EngineState :=
  let s1 := setFields s (_cloneDeep s.initialValues)
  { s1 with touched := deepSet s1.touched (.boolean false) }

/-- A write to one of the three stores.  Store writes notify
subscribers synchronously, so the sequence of writes performed by an
operation is exactly the sequence observers can see. -/
inductive StoreEvent where
  | writeData : JVal → StoreEvent
  | writeTouched : JVal → StoreEvent
  | writeErrors : JVal → StoreEvent

/-- The event is a write to the `touched` store. -/
def StoreEvent.isTouchedWrite : StoreEvent → Bool
  | .writeTouched _ => true
  | _ => false

/-- The event is a write to the `errors` store. -/
def StoreEvent.isErrorsWrite : StoreEvent → Bool
  | .writeErrors _ => true
  | _ => false

/-- The error tree actually stored by `errors.set(currentErrors || {})`:
the executor's result, or an empty tree when the result is empty. -/
def publishedErrors (r : Option JVal) : JVal :=
  r.getD (.obj .nil)

/-- The synchronous prefix of `validate()` in helpers.ts, up to its
single await point: capture the Value Tree snapshot (`get(data)`), then
replace the whole Touched Tree by `deepSet` with constant `true`.
Returns the new state, the captured snapshot and the store writes
performed. -/
def validateStart (s : EngineState) : EngineState × JVal × List StoreEvent :=
  let snapshot := s.data
  let t := deepSet s.touched (.boolean true)
  ({ s with touched := t }, snapshot, [StoreEvent.writeTouched t])

/-- The continuation of `validate()` after the await: on a resolved
executor result `r`, publish `r` (or an empty tree) to the `errors`
store in one write and return `r`; on a rejection, propagate it without
writing any store. -/
def validateFinish (s : EngineState) (result : Except Unit (Option JVal)) :
    EngineState × Except Unit (Option JVal) × List StoreEvent :=
  match result with
  | .ok r =>
      ({ s with errors := publishedErrors r }, .ok r,
        [StoreEvent.writeErrors (publishedErrors r)])
  | .error u => (s, .error u, [])

/-- A full `validate()` run with no interleaved mutation: the
synchronous prefix, then the Validation Executor on the captured
snapshot, then the continuation.  Yields the final state, the value
returned (or the propagated rejection) and the trace of store writes in
order. -/
def validateRun (s : EngineState) (vs : List Validator) :
    EngineState × Except Unit (Option JVal) × List StoreEvent :=
  let (s1, snapshot, tr1) := validateStart s
  let result := executeValidation snapshot vs
  let (s2, ret, tr2) := validateFinish s1 result
  (s2, ret, tr1 ++ tr2)

/-- A `validate()` run with an arbitrary state mutation `mutStep` (for
example `setField` or `setFields`) interleaved at the await point,
after the validators have started on the captured snapshot but before
they resolve. -/
def validateInterleaved (s : EngineState) (vs : List Validator)
    (mutStep : EngineState → EngineState) :
    EngineState × Except Unit (Option JVal) × List StoreEvent :=
  let (s1, snapshot, tr1) := validateStart s
  let s1' := mutStep s1
  let result := executeValidation snapshot vs
  let (s2, ret, tr2) := validateFinish s1' result
  (s2, ret, tr1 ++ tr2)

/-- A small concrete Value Tree `{a: 1, b: 2}` used by concrete checks. -/
def sampleData : JVal :=
  .obj (.cons "a" (.num 1) (.cons "b" (.num 2) .nil))

/-- A small concrete Error Tree `{a: "required"}`. -/
def sampleErrTree : JVal :=
  .obj (.cons "a" (.str "required") .nil)

/-- A concrete engine state over `sampleData`, with no attached form. -/
def sampleState : EngineState :=
  ⟨sampleData,
   .obj (.cons "a" (.boolean false) (.cons "b" (.boolean false) .nil)),
   .obj .nil, .obj .nil, none⟩

/-- A validator that always reports `sampleErrTree`. -/
def okValidator : Validator := fun _ => .ok (some sampleErrTree)

/-- A validator that rejects (throws) instead of returning an Error
Tree. -/
def failValidator : Validator := fun _ => .error ()

/-- A concrete form control bound to path `a`. -/
def sampleControl : Control := ⟨true, "a", [Seg.key "a"], .null⟩

/-- A concrete engine state with two attached controls both bound to
path `a`. -/
def sampleFormState : EngineState :=
  ⟨sampleData, .obj .nil, .obj .nil, .obj .nil,
   some [sampleControl, sampleControl]⟩

theorem objGet_objSet : ∀ (o : JObj) (k : String) (v : JVal),
    objGet (objSet o k v) k = v
  | .nil, k, v => by simp [objSet, objGet]
  | .cons k0 v0 rest, k, v => by
      by_cases h : k0 = k
      · simp [objSet, h, objGet]
      · simp [objSet, h, objGet, objGet_objSet rest k v]

theorem arrGet_arrSet (i : Nat) (a : JArr) (v : JVal) :
    arrGet (arrSet a i v) i = v := by
  induction i generalizing a with
  | zero => cases a <;> simp [arrSet, arrGet]
  | succ n ih => cases a <;> simp [arrSet, arrGet, ih]

theorem get_set_roundtrip (root : JVal) (p : Path) (v : JVal) :
    _get (_set root p v) p = v := by
  induction p generalizing root with
  | nil => simp [_set, _get]
  | cons s rest ih =>
      cases s with
      | key k => cases root <;> simp [_set, _get, objGet_objSet, ih]
      | idx i => cases root <;> simp [_set, _get, arrGet_arrSet, ih]

mutual
theorem cloneDeep_eq : ∀ (v : JVal), _cloneDeep v = v
  | .obj o => by simp [_cloneDeep, cloneObj_eq o]
  | .arr a => by simp [_cloneDeep, cloneArr_eq a]
  | .str _ => rfl
  | .num _ => rfl
  | .boolean _ => rfl
  | .null => rfl
  | .undefined => rfl
theorem cloneObj_eq : ∀ (o : JObj), cloneObj o = o
  | .nil => rfl
  | .cons k v rest => by simp [cloneObj, cloneDeep_eq v, cloneObj_eq rest]
theorem cloneArr_eq : ∀ (a : JArr), cloneArr a = a
  | .nil => rfl
  | .cons v rest => by simp [cloneArr, cloneDeep_eq v, cloneArr_eq rest]
end

mutual
theorem allLeaves_deepSet_bool (b : Bool) :
    ∀ (t : JVal), allLeavesP (isBool b) (deepSet t (.boolean b)) = true
  | .obj o => by simp [deepSet, allLeavesP, allLeavesObj_deepSet_bool b o]
  | .arr a => by simp [deepSet, allLeavesP, allLeavesArr_deepSet_bool b a]
  | .str _ => by simp [deepSet, allLeavesP, isBool]
  | .num _ => by simp [deepSet, allLeavesP, isBool]
  | .boolean _ => by simp [deepSet, allLeavesP, isBool]
  | .null => by simp [deepSet, allLeavesP, isBool]
  | .undefined => by simp [deepSet, allLeavesP, isBool]
theorem allLeavesObj_deepSet_bool (b : Bool) :
    ∀ (o : JObj), allLeavesObjP (isBool b) (deepSetObj o (.boolean b)) = true
  | .nil => rfl
  | .cons k v rest => by
      simp [deepSetObj, allLeavesObjP, allLeaves_deepSet_bool b v,
        allLeavesObj_deepSet_bool b rest]
theorem allLeavesArr_deepSet_bool (b : Bool) :
    ∀ (a : JArr), allLeavesArrP (isBool b) (deepSetArr a (.boolean b)) = true
  | .nil => rfl
  | .cons v rest => by
      simp [deepSetArr, allLeavesArrP, allLeaves_deepSet_bool b v,
        allLeavesArr_deepSet_bool b rest]
end

mutual
theorem deepSet_deepSet_bool (b : Bool) (c : JVal) :
    ∀ (t : JVal), deepSet (deepSet t (.boolean b)) c = deepSet t c
  | .obj o => by simp [deepSet, deepSetObj_deepSet_bool b c o]
  | .arr a => by simp [deepSet, deepSetArr_deepSet_bool b c a]
  | .str _ => rfl
  | .num _ => rfl
  | .boolean _ => rfl
  | .null => rfl
  | .undefined => rfl
theorem deepSetObj_deepSet_bool (b : Bool) (c : JVal) :
    ∀ (o : JObj), deepSetObj (deepSetObj o (.boolean b)) c = deepSetObj o c
  | .nil => rfl
  | .cons k v rest => by
      simp [deepSetObj, deepSet_deepSet_bool b c v, deepSetObj_deepSet_bool b c rest]
theorem deepSetArr_deepSet_bool (b : Bool) (c : JVal) :
    ∀ (a : JArr), deepSetArr (deepSetArr a (.boolean b)) c = deepSetArr a c
  | .nil => rfl
  | .cons v rest => by
      simp [deepSetArr, deepSet_deepSet_bool b c v, deepSetArr_deepSet_bool b c rest]
end

/-- Claim C8: for every root, every path `p` and every value `v`, reading
path `p` from the tree returned by `set(root, p, v)` yields exactly `v`
(the set/get round-trip property of the deep structural ops). -/
theorem claim_C8_set_get_roundtrip (root : JVal) (p : Path) (v : JVal) :
    _get (_set root p v) p = v :=
  get_set_roundtrip root p v

theorem setFields_proj (s : EngineState) (values : JVal) :
    (setFields s values).data = _cloneDeep values
    ∧ (setFields s values).touched = s.touched
    ∧ (setFields s values).errors = s.errors
    ∧ (setFields s values).initialValues = s.initialValues
    ∧ (setFields s values).formNode
        = s.formNode.map (fun cs => setForm cs values) := by
  cases h : s.formNode <;> simp [setFields, h]

theorem setField_proj (s : EngineState) (p : Path) (v : JVal) (touch : Bool) :
    (setField s p v touch).data = _set s.data p v
    ∧ (setField s p v touch).touched
        = (if touch then _set s.touched p (.boolean true) else s.touched)
    ∧ (setField s p v touch).errors = s.errors
    ∧ (setField s p v touch).initialValues = s.initialValues
    ∧ (setField s p v touch).formNode
        = s.formNode.map (fun cs => updateControls cs p v) := by
  cases touch <;> cases h : s.formNode <;> simp [setField, setTouched, h]

theorem updateControls_no_match : ∀ (cs : List Control) (p : Path) (v : JVal),
    (∀ c ∈ cs, matchesControl c p = false) → updateControls cs p v = cs
  | [], _, _, _ => rfl
  | c :: rest, p, v, h => by
      have hc := h c (List.mem_cons_self c rest)
      simp [updateControls, hc,
        updateControls_no_match rest p v (fun a ha => h a (List.mem_cons_of_mem c ha))]

theorem updateControls_first_match :
    ∀ (pre : List Control) (c : Control) (post : List Control) (p : Path) (v : JVal),
    (∀ a ∈ pre, matchesControl a p = false) → matchesControl c p = true →
    updateControls (pre ++ c :: post) p v = pre ++ { c with value := v } :: post
  | [], c, post, p, v, _, hc => by simp [updateControls, hc]
  | a :: pre, c, post, p, v, h, hc => by
      have ha := h a (List.mem_cons_self a pre)
      simp [updateControls, ha,
        updateControls_first_match pre c post p v
          (fun x hx => h x (List.mem_cons_of_mem a hx)) hc]

/-- Claim C4: for every engine state, `reset()` replaces the data store
with a deep clone of the current Initial Values Snapshot (re-syncing the
attached form controls when a form node is attached) and replaces the
touched store with a shape-isomorphic structure in which every leaf is
`false`, obtained by `deepSet` with constant `false`. -/
theorem claim_C4_reset (s : EngineState) :
    (reset s).data = _cloneDeep s.initialValues
    ∧ (reset s).touched = deepSet s.touched (.boolean false)
    ∧ allLeavesP (isBool false) ((reset s).touched) = true
    ∧ deepSet ((reset s).touched) JVal.null = deepSet s.touched JVal.null
    ∧ (reset s).formNode
        = s.formNode.map (fun cs => setForm cs (_cloneDeep s.initialValues)) := by
  cases h : s.formNode <;>
    simp [reset, setFields, h, cloneDeep_eq, allLeaves_deepSet_bool,
      deepSet_deepSet_bool]

/-- Claim C5: for every engine state, `reset()` leaves the errors store
completely unchanged: the Error Tree after `reset()` is identical to
the one before it. -/
theorem claim_C5_reset_keeps_errors (s : EngineState) :
    (reset s).errors = s.errors := by
  cases h : s.formNode <;> simp [reset, setFields, h]

/-- Claim C6: for every value tree `values`, `setFields(values)`
replaces the data store with a deep clone of `values` as a whole (a
full replace, not a merge); in particular `setFields({a: 1})` on a
Value Tree `{a: 1, b: 2}` yields exactly `{a: 1}` (`b` is dropped). -/
theorem claim_C6_setFields_wholesale (s : EngineState) (values : JVal) :
    (setFields s values).data = _cloneDeep values
    ∧ _cloneDeep values = values
    ∧ (setFields sampleState (.obj (.cons "a" (.num 1) .nil))).data
        = .obj (.cons "a" (.num 1) .nil) :=
  ⟨(setFields_proj s values).1, cloneDeep_eq values, rfl⟩

/-- Claim C7: `setField(path, value, touch)` updates the data store at
`path` via `_set`; when `touch` is true it also sets the Touched Tree
leaf at `path` to `true`; when a form node is attached the control list
is rewritten by `updateControls`, which pushes `value` into the first
control whose derived path equals `path` and into no other control, and
leaves the list unchanged (a silent no-op, never an error) when no
control matches; without a form node nothing else changes. -/
theorem claim_C7_setField (s : EngineState) (p : Path) (v : JVal) (touch : Bool) :
    (setField s p v touch).data = _set s.data p v
    ∧ (setField s p v touch).touched
        = (if touch then _set s.touched p (.boolean true) else s.touched)
    ∧ (setField s p v touch).errors = s.errors
    ∧ (setField s p v touch).formNode
        = s.formNode.map (fun cs => updateControls cs p v)
    ∧ (∀ cs : List Control, (∀ c ∈ cs, matchesControl c p = false) →
        updateControls cs p v = cs)
    ∧ (∀ (pre : List Control) (c : Control) (post : List Control),
        (∀ a ∈ pre, matchesControl a p = false) → matchesControl c p = true →
        updateControls (pre ++ c :: post) p v
          = pre ++ { c with value := v } :: post) := by
  obtain ⟨h1, h2, h3, _, h5⟩ := setField_proj s p v touch
  exact ⟨h1, h2, h3, h5,
    fun cs h => updateControls_no_match cs p v h,
    fun pre c post h hc => updateControls_first_match pre c post p v h hc⟩

/-- Witness for claim C7 at concrete inputs: with two controls both
bound to path `a`, setting field `a` pushes the value into the first
control only; the matching hypotheses are discharged concretely. -/
theorem claim_C7_setField_witness :
    matchesControl sampleControl [Seg.key "a"] = true
    ∧ updateControls [sampleControl, sampleControl] [Seg.key "a"] (.num 5)
        = [{ sampleControl with value := .num 5 }, sampleControl] :=
  ⟨rfl, (claim_C7_setField sampleFormState [Seg.key "a"] (.num 5) true).2.2.2.2.2
      [] sampleControl [sampleControl] (by simp) rfl⟩

/-- Claim C10: for every value tree `values`, `setFields(values)` writes
only the data store (and the attached form controls); the touched store
and the errors store (and the Initial Values Snapshot) are left
completely unchanged — in particular no field is marked touched. -/
theorem claim_C10_setFields_frame (s : EngineState) (values : JVal) :
    (setFields s values).touched = s.touched
    ∧ (setFields s values).errors = s.errors
    ∧ (setFields s values).initialValues = s.initialValues
    ∧ (setFields s values).data = _cloneDeep values
    ∧ (setFields s values).formNode
        = s.formNode.map (fun cs => setForm cs values) := by
  obtain ⟨h1, h2, h3, h4, h5⟩ := setFields_proj s values
  exact ⟨h2, h3, h4, h1, h5⟩

/-- Claim C1: a successful `validate()` run first replaces the whole
Touched Tree by `deepSet` with constant `true` (every leaf becomes
`true`), then runs the validators on the Value Tree snapshot captured
at entry, then replaces the Error Tree wholesale with the executor's
result (or an empty tree when it is empty) and returns that result.
The trace of store writes is exactly a touched write followed by a
single errors write, so the touch-all write strictly precedes the
error-tree write, the error tree is written exactly once, and the value
written is a function of the completed executor result. -/
theorem claim_C1_validate_success (s : EngineState) (vs : List Validator)
    (r : Option JVal) (h : executeValidation s.data vs = .ok r) :
    validateRun s vs =
      ({ s with touched := deepSet s.touched (.boolean true),
                errors := publishedErrors r },
       .ok r,
       [StoreEvent.writeTouched (deepSet s.touched (.boolean true)),
        StoreEvent.writeErrors (publishedErrors r)])
    ∧ allLeavesP (isBool true) ((validateRun s vs).1.touched) = true
    ∧ (validateRun s vs).2.2.countP StoreEvent.isErrorsWrite = 1
    ∧ (validateRun s vs).2.2.countP StoreEvent.isTouchedWrite = 1
    ∧ ((validateRun s vs).2.2.takeWhile
        (fun e => ! e.isErrorsWrite)).countP StoreEvent.isTouchedWrite = 1 := by
  have hrun : validateRun s vs =
      ({ s with touched := deepSet s.touched (.boolean true),
                errors := publishedErrors r },
       .ok r,
       [StoreEvent.writeTouched (deepSet s.touched (.boolean true)),
        StoreEvent.writeErrors (publishedErrors r)]) := by
    simp [validateRun, validateStart, validateFinish, h]
  refine ⟨hrun, ?_, ?_, ?_, ?_⟩ <;> rw [hrun] <;>
    simp [List.countP_cons, List.takeWhile, StoreEvent.isErrorsWrite,
      StoreEvent.isTouchedWrite, allLeaves_deepSet_bool]

/-- Witness for claim C1: a concrete state and a single validator that
reports `{a: "required"}`; the hypothesis is discharged by computation
and the errors store receives exactly one write. -/
theorem claim_C1_validate_success_witness :
    executeValidation sampleState.data [okValidator] = .ok (some sampleErrTree)
    ∧ (validateRun sampleState [okValidator]).2.2.countP
        StoreEvent.isErrorsWrite = 1 :=
  ⟨rfl, (claim_C1_validate_success sampleState [okValidator]
      (some sampleErrTree) rfl).2.2.1⟩

/-- Claim C2: the data snapshot passed to the validators of a
`validate()` call is the value of the data store at entry; a `setField`
or `setFields` (indeed any state mutation) interleaved after the call
has started but before its validators resolve does not alter that
snapshot, and the Error Tree eventually published reflects the
pre-mutation snapshot — it is the same tree the un-interleaved run
publishes. -/
theorem claim_C2_snapshot_isolation (s : EngineState) (vs : List Validator)
    (p : Path) (v : JVal) (touch : Bool) (values : JVal) (r : Option JVal)
    (h : executeValidation s.data vs = .ok r) :
    (∀ mutStep : EngineState → EngineState,
        (validateInterleaved s vs mutStep).2.1 = executeValidation s.data vs)
    ∧ (validateInterleaved s vs (fun st => setField st p v touch)).2.1 = .ok r
    ∧ (validateInterleaved s vs (fun st => setField st p v touch)).1.errors
        = publishedErrors r
    ∧ (validateInterleaved s vs (fun st => setField st p v touch)).1.errors
        = (validateRun s vs).1.errors
    ∧ (validateInterleaved s vs (fun st => setFields st values)).2.1 = .ok r
    ∧ (validateInterleaved s vs (fun st => setFields st values)).1.errors
        = publishedErrors r
    ∧ (validateInterleaved s vs (fun st => setFields st values)).1.errors
        = (validateRun s vs).1.errors := by
  refine ⟨fun mutStep => ?_, ?_, ?_, ?_, ?_, ?_, ?_⟩ <;>
    simp [validateInterleaved, validateRun, validateStart, validateFinish, h]

/-- Witness for claim C2: typing into field `b` while a validator over
the `{a: 1, b: 2}` snapshot is in flight does not change the published
Error Tree. -/
theorem claim_C2_snapshot_isolation_witness :
    executeValidation sampleState.data [okValidator] = .ok (some sampleErrTree)
    ∧ (validateInterleaved sampleState [okValidator]
        (fun st => setField st [Seg.key "b"] (.num 9) true)).1.errors
      = publishedErrors (some sampleErrTree) :=
  ⟨rfl, (claim_C2_snapshot_isolation sampleState [okValidator] [Seg.key "b"]
      (.num 9) true sampleData (some sampleErrTree) rfl).2.2.1⟩

/-- Claim C3: when a validator rejects, the rejection propagates
uncaught out of `validate()` to its caller, and the errors store is not
written at all — it retains exactly its value from before the call and
the write trace contains no errors write (no partial publication). -/
theorem claim_C3_validator_failure (s : EngineState) (vs : List Validator)
    (h : executeValidation s.data vs = .error ()) :
    (validateRun s vs).2.1 = .error ()
    ∧ (validateRun s vs).1.errors = s.errors
    ∧ (validateRun s vs).2.2.countP StoreEvent.isErrorsWrite = 0 := by
  simp [validateRun, validateStart, validateFinish, h, List.countP_cons,
    StoreEvent.isErrorsWrite]

/-- Witness for claim C3: a concrete rejecting validator; the errors
store keeps its prior value. -/
theorem claim_C3_validator_failure_witness :
    executeValidation sampleState.data [failValidator] = .error ()
    ∧ (validateRun sampleState [failValidator]).1.errors
        = sampleState.errors :=
  ⟨rfl, (claim_C3_validator_failure sampleState [failValidator] rfl).2.1⟩

/-- Claim C9: when a validator rejects, the touched store HAS already
been replaced with the all-true tree before the failure propagates: the
failed run's final touched store is `deepSet` of the old one with
constant `true` (every leaf `true`), its trace is exactly the one
touched write, and the rejection is still propagated — the touch-all
side effect is not rolled back. -/
theorem claim_C9_touch_all_survives_failure (s : EngineState)
    (vs : List Validator)
    (h : executeValidation s.data vs = .error ()) :
    (validateRun s vs).1.touched = deepSet s.touched (.boolean true)
    ∧ allLeavesP (isBool true) ((validateRun s vs).1.touched) = true
    ∧ (validateRun s vs).2.2
        = [StoreEvent.writeTouched (deepSet s.touched (.boolean true))]
    ∧ (validateRun s vs).2.1 = .error () := by
  simp [validateRun, validateStart, validateFinish, h, allLeaves_deepSet_bool]

/-- Witness for claim C9: after the concrete rejecting validator, every
field of the concrete state is marked touched. -/
theorem claim_C9_touch_all_survives_failure_witness :
    executeValidation sampleState.data [failValidator] = .error ()
    ∧ (validateRun sampleState [failValidator]).1.touched
        = deepSet sampleState.touched (.boolean true) :=
  ⟨rfl, (claim_C9_touch_all_survives_failure sampleState [failValidator] rfl).1⟩

end Felte
